import Mathlib

/-!
Verification development for the image-io codec toolkit (image.c / bmp.c).

The C sources are shallowly embedded: machine integers become `Nat`/`Int`
with explicit `% 2^w` at the points where the C performs a narrowing store
or unsigned wrap-around; `FILE*` streams become a byte list plus a cursor;
fallible C functions returning `NULL`/`FAILURE` become `Option`-valued
functions.  The embedding follows the RLE-capable revision of `bmp.c`.
-/

/-- Color value `color_t`: four 8-bit channels.  The fields are `Nat`s;
well-formed values (those representable in the C `uint8_t` fields) are
`< 256`, captured by `color_t.wf` where a theorem needs it. -/
structure color_t where
  r : Nat
  g : Nat
  b : Nat
  a : Nat
deriving DecidableEq, Repr

/-- Well-formedness of a color: each channel fits in the C `uint8_t`. -/
def color_t.wf (c : color_t) : Prop :=
  c.r < 256 ∧ c.g < 256 ∧ c.b < 256 ∧ c.a < 256

instance (c : color_t) : Decidable c.wf := by
  unfold color_t.wf
  infer_instance

/-- Pixel cell `pixcel_t`: in C a 4-byte union over `color_t` (RGBA view),
`uint8_t g` (grayscale view) and `uint8_t i` (index view).  The gray and
index views alias byte 0, which is the `r` field of the `color_t` view.
We model the cell as its four bytes `b0..b3`. -/
structure pixcel_t where
  b0 : Nat
  b1 : Nat
  b2 : Nat
  b3 : Nat
deriving DecidableEq, Repr

/-- RGBA view of a pixel cell (`p->c`). -/
def pixcel_t.cview (p : pixcel_t) : color_t :=
  ⟨p.b0, p.b1, p.b2, p.b3⟩

/-- Store a full `color_t` into a cell (`p->c = col`). -/
def pixcel_t.setC (col : color_t) : pixcel_t :=
  ⟨col.r, col.g, col.b, col.a⟩

/-- Grayscale view of a pixel cell (`p->g`), aliasing byte 0. -/
def pixcel_t.gview (p : pixcel_t) : Nat := p.b0

/-- Index view of a pixel cell (`p->i`), aliasing byte 0. -/
def pixcel_t.iview (p : pixcel_t) : Nat := p.b0

/-- Write the index byte only (`p->i = v`), leaving the other bytes. -/
def pixcel_t.setI (p : pixcel_t) (v : Nat) : pixcel_t :=
  { p with b0 := v }

/-- `memset(p, 0, sizeof(pixcel_t)); p->i = v` — zero the cell, then store
the index byte.  Also used for `p->g = v` after a memset, since the gray
view aliases the same byte. -/
def pixcel_t.fresh (v : Nat) : pixcel_t :=
  ⟨v, 0, 0, 0⟩

/-- Well-formed pixel cell: all four bytes fit in `uint8_t`. -/
def pixcel_t.wf (p : pixcel_t) : Prop :=
  p.b0 < 256 ∧ p.b1 < 256 ∧ p.b2 < 256 ∧ p.b3 < 256

instance (p : pixcel_t) : Decidable p.wf := by
  unfold pixcel_t.wf
  infer_instance

/-- The `COLOR_TYPE_*` constants of image.h. -/
inductive color_type_t
  | index
  | gray
  | rgb
  | rgba
deriving DecidableEq, Repr

/-- Image value `image_t`.  The C `palette` buffer always has 256 slots of
which `palette_num` are in use; every operation in the sources touches only
the used prefix, so we model the palette as the list of its used entries
(`palette_num` is its length). -/
structure image_t where
  width : Nat
  height : Nat
  color_type : color_type_t
  palette : List color_t
  map : List (List pixcel_t)
deriving DecidableEq, Repr

/-- Number of used palette entries (`img->palette_num`). -/
def image_t.palette_num (img : image_t) : Nat := img.palette.length

/-- Well-formed image: the grid is `height` rows of `width` cells, all cell
bytes and palette channels fit in `uint8_t`. -/
def image_t.wf (img : image_t) : Prop :=
  img.map.length = img.height ∧
  (∀ row ∈ img.map, row.length = img.width ∧ ∀ p ∈ row, p.wf) ∧
  (∀ c ∈ img.palette, c.wf)

instance (img : image_t) : Decidable img.wf := by
  unfold image_t.wf
  infer_instance

/-- allocate_image: a `width × height` grid of zeroed cells; in Indexed mode
the palette buffer is allocated but has zero used entries. -/
def allocate_image (width height : Nat) (ty : color_type_t) : image_t :=
  { width := width
    height := height
    color_type := ty
    palette := []
    map := List.replicate height (List.replicate width (pixcel_t.fresh 0)) }

/-- clone_image: a deep copy.  The C allocates fresh buffers and copies the
`palette_num` used palette entries and each row of cells; on the value level
the clone carries exactly the same data. -/
def clone_image (img : image_t) : image_t :=
  { width := img.width
    height := img.height
    color_type := img.color_type
    palette := img.palette
    map := img.map.map (fun row => row.map id) }

/-- color_from_rgb: alpha defaults to 0xff. -/
def color_from_rgb (r g b : Nat) : color_t :=
  ⟨r, g, b, 0xff⟩

/-- color_from_rgba. -/
def color_from_rgba (r g b a : Nat) : color_t :=
  ⟨r, g, b, a⟩

/-- Row-major list of the RGBA views of all cells, in the scan order of the
C double loop (`y` outer, `x` inner). -/
def image_colors (img : image_t) : List color_t :=
  (img.map.map (fun row => row.map pixcel_t.cview)).flatten

/-- Single step of the palette builder of image_rgb_to_index: look the color
up by `memcmp` equality; append it if new; fail once 256 distinct colors
already exist and a new one appears. -/
def palette_insert (pal : List color_t) (c : color_t) : Option (List color_t) :=
  if c ∈ pal then some pal
  else if pal.length = 256 then none
  else some (pal ++ [c])

/-- First pass of image_rgb_to_index: fold `palette_insert` over the pixels
in scan order. -/
def build_palette (pal : List color_t) : List color_t → Option (List color_t)
  | [] => some pal
  | c :: cs =>
    match palette_insert pal c with
    | none => none
    | some pal' => build_palette pal' cs

/-- Spec-side description of the palette (`first-seen order of the distinct
colors`), written from the specification's words for comparison with the
code's `build_palette`. -/
def first_seen_palette (pal : List color_t) : List color_t → List color_t
  | [] => pal
  | c :: cs => first_seen_palette (if c ∈ pal then pal else pal ++ [c]) cs

/-- Second pass of image_rgb_to_index: the first palette slot holding this
color (`List.indexOf` is the linear scan the C performs). -/
def index_of_color (pal : List color_t) (c : color_t) : Nat :=
  pal.indexOf c

/-- image_rgb_to_index: build the palette from the pixels, then replace
every cell by the index of its color (cell zeroed first by the memset). -/
def image_rgb_to_index (img : image_t) : Option image_t :=
  if img.color_type ≠ color_type_t.rgb then none
  else
    match build_palette [] (image_colors img) with
    | none => none
    | some pal =>
      some { img with
              color_type := color_type_t.index
              palette := pal
              map := img.map.map (fun row =>
                row.map (fun p => pixcel_t.fresh (index_of_color pal p.cview))) }

/-- The fixed 256-entry identity grayscale palette of image_gray_to_index. -/
def gray_identity_palette : List color_t :=
  (List.range 256).map (fun i => ⟨i, i, i, 0xff⟩)

/-- image_gray_to_index: identity palette; every cell is zeroed and its gray
byte becomes its own index. -/
def image_gray_to_index (img : image_t) : Option image_t :=
  if img.color_type ≠ color_type_t.gray then none
  else
    some { img with
            color_type := color_type_t.index
            palette := gray_identity_palette
            map := img.map.map (fun row => row.map (fun p => pixcel_t.fresh p.gview)) }

/-- image_index_to_rgb: palette lookup per cell; fails when some cell's
index is not below `palette_num`.  On success the palette is released. -/
def image_index_to_rgb (img : image_t) : Option image_t :=
  if img.color_type ≠ color_type_t.index then none
  else if img.map.all (fun row => row.all (fun p => p.iview < img.palette.length)) then
    some { img with
            color_type := color_type_t.rgb
            palette := []
            map := img.map.map (fun row =>
              row.map (fun p => pixcel_t.setC (img.palette.getD p.iview ⟨0, 0, 0, 0⟩))) }
  else none

/-- Alpha blend of one channel in image_rgba_to_rgb:
`(src*a + bg*(0xff - a) + 0x7f) / 0xff`, stored into a `uint8_t` (hence the
final `% 256`; on `uint8_t` inputs the quotient fits and the mod is the
identity). -/
def blend_channel (src bg a : Nat) : Nat :=
  (src * a + bg * (0xff - a) + 0x7f) / 0xff % 256

/-- Per-pixel body of image_rgba_to_rgb. -/
def blend_pixel (bg : color_t) (p : pixcel_t) : pixcel_t :=
  ⟨blend_channel p.b0 bg.r p.b3,
   blend_channel p.b1 bg.g p.b3,
   blend_channel p.b2 bg.b p.b3,
   0xff⟩

/-- Spec-side per-pixel composite formula, written from the specification's
words: `out = (src·a + bg·(255−a) + 127) / 255` on each of R,G,B in exact
integer arithmetic, alpha forced to 255. -/
def spec_composite_pixel (bg : color_t) (p : pixcel_t) : pixcel_t :=
  ⟨(p.b0 * p.b3 + bg.r * (255 - p.b3) + 127) / 255,
   (p.b1 * p.b3 + bg.g * (255 - p.b3) + 127) / 255,
   (p.b2 * p.b3 + bg.b * (255 - p.b3) + 127) / 255,
   255⟩

/-- image_rgba_to_rgb (`composite_onto`): RGBA only; alpha blend every pixel
onto the background and retag the image RGB. -/
def image_rgba_to_rgb (img : image_t) (bg : color_t) : Option image_t :=
  if img.color_type ≠ color_type_t.rgba then none
  else
    some { img with
            color_type := color_type_t.rgb
            map := img.map.map (fun row => row.map (blend_pixel bg)) }

/-- image_gray_to_rgb: replicate the gray byte into R,G,B with alpha 0xff. -/
def image_gray_to_rgb (img : image_t) : Option image_t :=
  if img.color_type ≠ color_type_t.gray then none
  else
    some { img with
            color_type := color_type_t.rgb
            map := img.map.map (fun row =>
              row.map (fun p => pixcel_t.setC ⟨p.gview, p.gview, p.gview, 0xff⟩)) }

/-- image_gray_to_binary: two-entry palette {white, black}; gray < 128 maps
to index 1, otherwise index 0.  Only the index byte of each cell is
written. -/
def image_gray_to_binary (img : image_t) : Option image_t :=
  if img.color_type ≠ color_type_t.gray then none
  else
    some { img with
            color_type := color_type_t.index
            palette := [color_from_rgb 255 255 255, color_from_rgb 0 0 0]
            map := img.map.map (fun row =>
              row.map (fun p => p.setI (if p.gview < 128 then 1 else 0))) }

/-- Exact model of an IEEE-754 binary32 value in the normal range, as a
dyadic rational `m * 2^e`.  image_rgb_to_gray is the one routine of the
sources computing in C `float`; every C operation rounds its exact result
to 24 significand bits (round to nearest, ties to even), which
`f32_norm` performs exactly.  Subnormals and overflow are outside the range
this computation can reach and are not modelled. -/
structure f32 where
  m : Int
  e : Int
deriving DecidableEq, Repr

/-- Bit length of a natural number below `2^64`. -/
def bit_len (n : Nat) : Nat :=
  (List.range 64).foldl (fun acc b => if 2 ^ b ≤ n then b + 1 else acc) 0

/-- Round the exact dyadic value `M * 2^E` to 24 significand bits, round to
nearest with ties to even. -/
def f32_norm (M : Int) (E : Int) : f32 :=
  if M = 0 then ⟨0, 0⟩
  else
    let s := bit_len M.natAbs
    if s ≤ 24 then ⟨M, E⟩
    else
      let sh := s - 24
      let half := 2 ^ (sh - 1)
      let q0 := M.natAbs / 2 ^ sh
      let r := M.natAbs % 2 ^ sh
      let q := q0 + (if half < r then 1 else if r < half then 0 else q0 % 2)
      ⟨if M < 0 then -(q : Int) else (q : Int), E + sh⟩

/-- Single-precision multiplication: exact product, then one rounding. -/
def f32_mul (x y : f32) : f32 := f32_norm (x.m * y.m) (x.e + y.e)

/-- Single-precision addition: exact sum, then one rounding. -/
def f32_add (x y : f32) : f32 :=
  let e := min x.e y.e
  f32_norm (x.m * 2 ^ (x.e - e).toNat + y.m * 2 ^ (y.e - e).toNat) e

/-- Binade exponent of the positive rational `p / q` (greatest `e` with
`2^e ≤ p/q`), searched over the range `[-64, 64]`. -/
def rat_exp (p q : Nat) : Int :=
  (List.range 129).foldl
    (fun acc i =>
      let e : Int := (i : Int) - 64
      if (if 0 ≤ e then q * 2 ^ e.toNat ≤ p else q ≤ p * 2 ^ (-e).toNat) then e else acc)
    (-64)

/-- Nearest binary32 value of the positive rational `p / q` (ties to even):
the value of a C decimal `float` literal such as `0.299f`. -/
def rat_to_f32 (p q : Nat) : f32 :=
  let e := rat_exp p q
  let sh : Int := 23 - e
  let num := p * 2 ^ sh.toNat
  let den := q * 2 ^ (-sh).toNat
  let m0 := num / den
  let r := num % den
  let m := m0 + (if den < 2 * r then 1 else if 2 * r < den then 0 else m0 % 2)
  ⟨(m : Int), e - 23⟩

/-- Conversion of a small non-negative integer to binary32 (exact for the
`uint8_t` channel values involved). -/
def f32_of_nat (n : Nat) : f32 := f32_norm (n : Int) 0

/-- C cast of a non-negative `float` to an integer: truncation toward
zero. -/
def f32_trunc (x : f32) : Nat :=
  if 0 ≤ x.e then x.m.toNat * 2 ^ x.e.toNat else x.m.toNat / 2 ^ (-x.e).toNat

/-- Value of the C literal `0.299f`. -/
def w299 : f32 := rat_to_f32 299 1000

/-- Value of the C literal `0.587f`. -/
def w587 : f32 := rat_to_f32 587 1000

/-- Value of the C literal `0.114f`. -/
def w114 : f32 := rat_to_f32 114 1000

/-- Value of the C literal `0.5f` (exact). -/
def whalf : f32 := ⟨1, -1⟩

/-- Luma computation of image_rgb_to_gray:
`(uint8_t)(0.299f * r + 0.587f * g + 0.114f * b + 0.5f)`, every operation
in single precision, left-associated as in C, truncated by the `uint8_t`
cast. -/
def gray_luma (r g b : Nat) : Nat :=
  (f32_trunc (f32_add
    (f32_add (f32_add (f32_mul w299 (f32_of_nat r)) (f32_mul w587 (f32_of_nat g)))
      (f32_mul w114 (f32_of_nat b)))
    whalf)) % 256

/-- image_rgb_to_gray: per pixel, zero the cell and store the luma byte. -/
def image_rgb_to_gray (img : image_t) : Option image_t :=
  if img.color_type ≠ color_type_t.rgb then none
  else
    some { img with
            color_type := color_type_t.gray
            map := img.map.map (fun row =>
              row.map (fun p => pixcel_t.fresh (gray_luma p.b0 p.b1 p.b2))) }

/-- Spec-side description of the grayscale weights, written from the
specification's words: `0.299 R + 0.587 G + 0.114 B`, rounded to nearest
with ties up by adding one half and truncating, in exact arithmetic (the
value is scaled by 1000 to stay in integers: `⌊(299R + 587G + 114B)/1000 +
1/2⌋ = (299R + 587G + 114B + 500) / 1000`). -/
def spec_luma (r g b : Nat) : Nat :=
  (299 * r + 587 * g + 114 * b + 500) / 1000

/-- A C `FILE*` opened for reading: the file's bytes and the cursor. -/
structure cfile_t where
  data : List Nat
  pos : Nat
deriving DecidableEq, Repr

/-- C `fread(buf, n, 1, fp)`: succeeds (returns 1) exactly when `n > 0` and
`n` bytes remain; the sources treat any other return as failure. -/
def cfile_t.fread (f : cfile_t) (n : Nat) : Option (List Nat × cfile_t) :=
  if 0 < n ∧ f.pos + n ≤ f.data.length then
    some ((f.data.drop f.pos).take n, { f with pos := f.pos + n })
  else none

/-- C `fseek(fp, off, SEEK_SET)`; seeking inside or past the data always
succeeds on a regular file. -/
def cfile_t.fseek (f : cfile_t) (off : Nat) : cfile_t :=
  { f with pos := off }

/-- bs_read8 at a given offset of a read buffer: a read past the buffer
yields 0 (the byte-stream error path of `bs_t`); bytes are `uint8_t`. -/
def rd8 (buf : List Nat) (k : Nat) : Nat :=
  buf.getD k 0 % 256

/-- bs_read16: two little-endian bytes; 0 if the read would overrun. -/
def rd16 (buf : List Nat) (k : Nat) : Nat :=
  if k + 2 ≤ buf.length then rd8 buf k + 256 * rd8 buf (k + 1) else 0

/-- bs_read32: four little-endian bytes; 0 if the read would overrun. -/
def rd32 (buf : List Nat) (k : Nat) : Nat :=
  if k + 4 ≤ buf.length then
    rd8 buf k + 256 * rd8 buf (k + 1) + 65536 * rd8 buf (k + 2) + 16777216 * rd8 buf (k + 3)
  else 0

/-- Reinterpretation of a `uint32_t` bit pattern as the C `int32_t` it
stores (two's complement). -/
def to_int32 (n : Nat) : Int :=
  if n % 4294967296 < 2147483648 then ((n % 4294967296 : Nat) : Int)
  else ((n % 4294967296 : Nat) : Int) - 4294967296

/-- BITMAPFILEHEADER. -/
structure BITMAPFILEHEADER where
  bfType : Nat
  bfSize : Nat
  bfReserved1 : Nat
  bfReserved2 : Nat
  bfOffBits : Nat
deriving DecidableEq, Repr

/-- BITMAPINFOHEADER; width and height are signed 32-bit fields. -/
structure BITMAPINFOHEADER where
  biSize : Nat
  biWidth : Int
  biHeight : Int
  biPlanes : Nat
  biBitCount : Nat
  biCompression : Nat
  biSizeImage : Nat
  biXPelsPerMeter : Int
  biYPelsPerMeter : Int
  biClrUsed : Nat
  biClrImportant : Nat
deriving DecidableEq, Repr

/-- channel_mask: mask, shift of its lowest set bit, and the maximum value
of the masked field. -/
structure channel_mask where
  mask : Nat
  shift : Nat
  max : Nat
deriving DecidableEq, Repr

/-- bmp_header_t: file header, info header and the four channel masks
(index 0 = red, 1 = green, 2 = blue, 3 = alpha). -/
structure bmp_header_t where
  file : BITMAPFILEHEADER
  info : BITMAPINFOHEADER
  cm0 : channel_mask
  cm1 : channel_mask
  cm2 : channel_mask
  cm3 : channel_mask
deriving DecidableEq, Repr

/-- The all-zero header produced by the `memset` in read_bmp_stream. -/
def zero_bmp_header : bmp_header_t :=
  ⟨⟨0, 0, 0, 0, 0⟩, ⟨0, 0, 0, 0, 0, 0, 0, 0, 0, 0, 0⟩,
   ⟨0, 0, 0⟩, ⟨0, 0, 0⟩, ⟨0, 0, 0⟩, ⟨0, 0, 0⟩⟩

/-- Body of read_color_masks for one mask word: find the lowest set bit;
an empty mask (or an empty field) is treated as full range 0xff. -/
def read_one_mask (m : Nat) : channel_mask :=
  if m = 0 then ⟨0, 0, 255⟩
  else
    let b := (((List.range 32).filter (fun b => m / 2 ^ b % 2 = 1)).headD 0)
    let mx := m >>> b
    ⟨m, b, if mx = 0 then 255 else mx⟩

/-- read_color_masks over the four mask words. -/
def read_color_masks (m0 m1 m2 m3 : Nat) (h : bmp_header_t) : bmp_header_t :=
  { h with cm0 := read_one_mask m0, cm1 := read_one_mask m1,
           cm2 := read_one_mask m2, cm3 := read_one_mask m3 }

/-- set_default_color_masks: fixed masks for 32 bpp (8-8-8) and 16 bpp
(5-5-5); any other bit count leaves the masks unchanged. -/
def set_default_color_masks (bit_count : Nat) (h : bmp_header_t) : bmp_header_t :=
  if bit_count = 32 then read_color_masks 0xff0000 0xff00 0xff 0 h
  else if bit_count = 16 then read_color_masks 0x7c00 0x3e0 0x1f 0 h
  else h

/-- The CMASK macro: `(((d & mask) >> shift) * 255 + max/2) / max` in
`uint32_t` arithmetic (hence the wrap before the division). -/
def cmask_val (d : Nat) (m : channel_mask) : Nat :=
  (((d &&& m.mask) >>> m.shift) * 255 + m.max / 2) % 4294967296 / m.max

/-- read_file_header: 14 bytes; the signature must be "BM" and the declared
pixel-data offset at most `OFF_BITS_MAX = 14 + 124 + 4*256`. -/
def read_file_header (f : cfile_t) : Option (BITMAPFILEHEADER × cfile_t) :=
  match f.fread 14 with
  | none => none
  | some (buf, f1) =>
    let fh : BITMAPFILEHEADER :=
      ⟨rd16 buf 0, rd32 buf 2, rd16 buf 6, rd16 buf 8, rd32 buf 10⟩
    if fh.bfType ≠ 0x4D42 then none
    else if fh.bfOffBits > 1162 then none
    else some (fh, f1)

/-- Field layout shared by the 40/64/108/124-byte dialects (the first 36
bytes after `biSize`). -/
def parse_win_fields (buf : List Nat) (size : Nat) : BITMAPINFOHEADER :=
  { biSize := size
    biWidth := to_int32 (rd32 buf 0)
    biHeight := to_int32 (rd32 buf 4)
    biPlanes := rd16 buf 8
    biBitCount := rd16 buf 10
    biCompression := rd32 buf 12
    biSizeImage := rd32 buf 16
    biXPelsPerMeter := to_int32 (rd32 buf 20)
    biYPelsPerMeter := to_int32 (rd32 buf 24)
    biClrUsed := rd32 buf 28
    biClrImportant := rd32 buf 32 }

/-- Dialect-dispatch phase of read_info_header: read `biSize`, then the
rest of the declared header, fill the fields and the channel masks.  The
12-byte mask block of the 40/64-byte dialects sits in the palette area and
is only read when `bfOffBits` leaves room for it (computed, as in the C, in
wrapping `uint32_t` arithmetic). -/
def parse_info_dialect (f : cfile_t) (h : bmp_header_t) : Option (bmp_header_t × cfile_t) :=
  match f.fread 4 with
  | none => none
  | some (b4, f1) =>
    let size := rd32 b4 0
    if size > 124 then none
    else
      match (if size ≤ 4 then none else f1.fread (size - 4)) with
      | none => none
      | some (buf, f2) =>
        if size = 12 then
          let info : BITMAPINFOHEADER :=
            { biSize := 12, biWidth := ((rd16 buf 0 : Nat) : Int),
              biHeight := ((rd16 buf 2 : Nat) : Int),
              biPlanes := rd16 buf 4, biBitCount := rd16 buf 6,
              biCompression := 0, biSizeImage := 0, biXPelsPerMeter := 0,
              biYPelsPerMeter := 0, biClrUsed := 0, biClrImportant := 0 }
          some ({ h with info := info }, f2)
        else if size = 40 ∨ size = 64 then
          let info := parse_win_fields buf size
          let h1 := { h with info := info }
          if info.biCompression = 3 then
            if (((h.file.bfOffBits : Int) - 14 - (size : Int)) % 4294967296) < 12 then none
            else
              match f2.fread 12 with
              | none => none
              | some (mbuf, f3) =>
                some (read_color_masks (rd32 mbuf 0) (rd32 mbuf 4) (rd32 mbuf 8) 0 h1, f3)
          else if info.biCompression = 0 then
            some (set_default_color_masks info.biBitCount h1, f2)
          else some (h1, f2)
        else if size = 108 ∨ size = 124 then
          let info := parse_win_fields buf size
          let h1 := { h with info := info }
          if info.biCompression = 3 then
            some (read_color_masks (rd32 buf 36) (rd32 buf 40) (rd32 buf 44) (rd32 buf 48) h1, f2)
          else if info.biCompression = 0 then
            some (set_default_color_masks info.biBitCount h1, f2)
          else some (h1, f2)
        else none

/-- Consistency check at the end of read_info_header, transcribed from the
code (BI_RGB = 0, BI_RLE8 = 1, BI_RLE4 = 2, BI_BITFIELDS = 3). -/
def info_header_valid (i : BITMAPINFOHEADER) : Bool :=
  (i.biBitCount == 1 || i.biBitCount == 4 || i.biBitCount == 8 ||
   i.biBitCount == 16 || i.biBitCount == 24 || i.biBitCount == 32) &&
  (i.biCompression == 0 ||
   (i.biBitCount == 4 && i.biCompression == 2) ||
   (i.biBitCount == 8 && i.biCompression == 1) ||
   (i.biBitCount == 16 && i.biCompression == 3) ||
   (i.biBitCount == 32 && i.biCompression == 3)) &&
  !(i.biWidth ≤ 0 || i.biHeight == 0 || i.biHeight == -2147483648)

/-- read_info_header: dialect parse followed by the consistency check. -/
def read_info_header (f : cfile_t) (h : bmp_header_t) : Option (bmp_header_t × cfile_t) :=
  match parse_info_dialect f h with
  | none => none
  | some (h', f') => if info_header_valid h'.info then some (h', f') else none

/-- Palette entries parsed from the palette buffer: each entry is b, g, r
(plus a reserved byte outside the 12-byte dialect); alpha is 0xff. -/
def parse_palette (buf : List Nat) (csize : Nat) : Nat → Nat → List color_t
  | _, 0 => []
  | off, n + 1 =>
    ⟨rd8 buf (off + 2), rd8 buf (off + 1), rd8 buf off, 255⟩ ::
      parse_palette buf csize (off + csize) n

/-- read_palette: the palette entry count is derived from `bfOffBits` in C
`int` arithmetic, compared against `biClrUsed` with the C `int`/`uint32_t`
conversion, clamped by `1 << biBitCount` and by a nonzero `biClrUsed`. -/
def read_palette (f : cfile_t) (h : bmp_header_t) (img : image_t) : Option (image_t × cfile_t) :=
  let color_size : Int := if h.info.biSize = 12 then 3 else 4
  let psize0 : Int := (h.file.bfOffBits : Int) - 14 - (h.info.biSize : Int)
  let pnum0 : Int := Int.tdiv psize0 color_size
  let palette_max : Int := 2 ^ h.info.biBitCount
  if (pnum0 % 4294967296).toNat < h.info.biClrUsed then none
  else
    let pnum1 : Int := if pnum0 > palette_max then palette_max else pnum0
    let pnum2 : Int :=
      if h.info.biClrUsed ≠ 0 ∧ h.info.biClrUsed < (pnum1 % 4294967296).toNat
      then (h.info.biClrUsed : Int) else pnum1
    let psize : Int := pnum2 * color_size
    if psize ≤ 0 then none
    else
      match f.fread psize.toNat with
      | none => none
      | some (buf, f1) =>
        some ({ img with palette := parse_palette buf color_size.toNat 0 pnum2.toNat }, f1)

/-- Row-wise bitmap readers: read `n` rows in stream order, each decoded
from a `stride`-byte buffer by `dec`. -/
def read_rows (stride : Nat) (dec : List Nat → List pixcel_t) :
    Nat → cfile_t → Option (List (List pixcel_t) × cfile_t)
  | 0, f => some ([], f)
  | n + 1, f =>
    match f.fread stride with
    | none => none
    | some (buf, f1) =>
      match read_rows stride dec n f1 with
      | none => none
      | some (rest, f2) => some (dec buf :: rest, f2)

/-- One row of the 24-bit path: bytes b, g, r per pixel, alpha 0xff. -/
def decode_24_row (buf : List Nat) : Nat → Nat → List pixcel_t
  | _, 0 => []
  | pos, n + 1 =>
    ⟨rd8 buf (pos + 2), rd8 buf (pos + 1), rd8 buf pos, 255⟩ ::
      decode_24_row buf (pos + 3) n

/-- One pixel of the 32/16-bit paths from a packed word via the masks. -/
def mask_pixel (h : bmp_header_t) (w : Nat) : pixcel_t :=
  ⟨cmask_val w h.cm0 % 256, cmask_val w h.cm1 % 256, cmask_val w h.cm2 % 256,
   if h.cm3.mask = 0 then 255 else cmask_val w h.cm3 % 256⟩

/-- One row of the 32-bit path. -/
def decode_32_row (h : bmp_header_t) (buf : List Nat) : Nat → Nat → List pixcel_t
  | _, 0 => []
  | pos, n + 1 => mask_pixel h (rd32 buf pos) :: decode_32_row h buf (pos + 4) n

/-- One row of the 16-bit path. -/
def decode_16_row (h : bmp_header_t) (buf : List Nat) : Nat → Nat → List pixcel_t
  | _, 0 => []
  | pos, n + 1 => mask_pixel h (rd16 buf pos) :: decode_16_row h buf (pos + 2) n

/-- Bit-unpacking loop of read_bitmap_index: indices are packed
most-significant-bits-first; the shift counter resets every 8 bits, at
which point the next buffer byte is fetched. -/
def decode_index_aux (bc mask : Nat) (buf : List Nat) : Nat → Nat → Nat → Nat → List Nat
  | _, _, _, 0 => []
  | pos, shift, tmp, n + 1 =>
    let shift' := shift - bc
    let v := (tmp >>> shift') &&& mask
    if shift' = 0 then v :: decode_index_aux bc mask buf (pos + 1) 8 (rd8 buf pos) n
    else v :: decode_index_aux bc mask buf pos shift' tmp n

/-- One row of the indexed path (1/4/8 bpp). -/
def decode_index_row (bc mask width : Nat) (buf : List Nat) : List pixcel_t :=
  (decode_index_aux bc mask buf 1 8 (rd8 buf 0) width).map pixcel_t.fresh

/-- Write the index byte of cell `(y, x)` of the grid (guarded writes of
the RLE decoder; the C only reaches this with `y`, `x` in range). -/
def set_pix (m : List (List pixcel_t)) (y x v : Nat) : List (List pixcel_t) :=
  let row := m.getD y []
  m.set y (row.set x ((row.getD x ⟨0, 0, 0, 0⟩).setI v))

/-- The descending shift values `8-bc, 8-2bc, …, 0` of one packed byte. -/
def rle_shifts (bc : Nat) : List Nat :=
  (List.range (8 / bc)).map (fun j => 8 - bc - j * bc)

/-- Inner loop of an RLE encoded run: one pass over the packed byte's
sub-values, stopping at the run count or the image width. -/
def rle_enc_inner (mask width cnt val y : Nat) :
    List Nat → Nat × Nat × List (List pixcel_t) → Nat × Nat × List (List pixcel_t)
  | [], st => st
  | s :: ss, (i, x, m) =>
    if i < cnt ∧ x < width then
      rle_enc_inner mask width cnt val y ss (i + 1, x + 1, set_pix m y x ((val >>> s) &&& mask))
    else (i, x, m)

/-- Outer loop of an RLE encoded run, cycling the packed byte until `cnt`
pixels were emitted or the row is full.  Each iteration emits at least one
pixel for the reachable bit depths, so `cnt` iterations suffice; the fuel
returns the state unchanged if exhausted. -/
def rle_enc_outer (bc mask width cnt val y : Nat) :
    Nat → Nat × Nat × List (List pixcel_t) → Nat × Nat × List (List pixcel_t)
  | 0, st => st
  | fuel + 1, (i, x, m) =>
    if i < cnt ∧ x < width then
      rle_enc_outer bc mask width cnt val y fuel
        (rle_enc_inner mask width cnt val y (rle_shifts bc) (i, x, m))
    else (i, x, m)

/-- Absolute-mode unpack of the RLE decoder: `n` literal pixels from the
padded data buffer, stopping at the image width. -/
def rle_abs_aux (bc mask width : Nat) (dbuf : List Nat) (y : Nat) :
    Nat → Nat → Nat → Nat → Nat × List (List pixcel_t) → Nat × List (List pixcel_t)
  | _, _, _, 0, st => st
  | pos, shift, tmp, n + 1, (x, m) =>
    if x < width then
      let shift' := shift - bc
      let m' := set_pix m y x ((tmp >>> shift') &&& mask)
      if shift' = 0 then rle_abs_aux bc mask width dbuf y (pos + 1) 8 (rd8 dbuf pos) n (x + 1, m')
      else rle_abs_aux bc mask width dbuf y pos shift' tmp n (x + 1, m')
    else (x, m)

/-- Main loop of read_bitmap_rle.  The loop runs while the row cursor is
non-negative and the column cursor is at most the width; each iteration
reads at least two bytes, so `data.length + 1` fuel is enough for any
stream (exhausted fuel yields `none`, an unreachable artifact of the
model). -/
def rle_loop (bc mask width : Nat) :
    Nat → cfile_t → Int → Nat → List (List pixcel_t) →
    Option (List (List pixcel_t) × cfile_t)
  | 0, _, _, _, _ => none
  | fuel + 1, f, y, x, m =>
    if 0 ≤ y ∧ x ≤ width then
      match f.fread 2 with
      | none => none
      | some (buf, f1) =>
        let b0 := rd8 buf 0
        let b1 := rd8 buf 1
        if b0 ≠ 0 then
          let st := rle_enc_outer bc mask width b0 b1 y.toNat b0 (0, x, m)
          rle_loop bc mask width fuel f1 y st.2.1 st.2.2
        else if b1 > 2 then
          let c := (b1 * bc + 15) / 16 * 2
          match f1.fread c with
          | none => none
          | some (dbuf, f2) =>
            let st := rle_abs_aux bc mask width dbuf y.toNat 1 8 (rd8 dbuf 0) b1 (x, m)
            rle_loop bc mask width fuel f2 y st.1 st.2
        else if b1 = 2 then
          match f1.fread 2 with
          | none => none
          | some (dbuf, f2) =>
            rle_loop bc mask width fuel f2 (y - (rd8 dbuf 1 : Nat)) (x + rd8 dbuf 0) m
        else if b1 = 1 then some (m, f1)
        else rle_loop bc mask width fuel f1 (y - 1) 0 m
    else some (m, f)

/-- read_bitmap_rle: run the RLE loop from the bottom row. -/
def read_bitmap_rle (f : cfile_t) (h : bmp_header_t) (img : image_t) :
    Option (image_t × cfile_t) :=
  let bc := h.info.biBitCount
  let mask := 2 ^ bc - 1
  let width := h.info.biWidth.toNat
  match rle_loop bc mask width (f.data.length + 1) f ((h.info.biHeight.natAbs : Int) - 1) 0 img.map with
  | none => none
  | some (m, f1) => some ({ img with map := m }, f1)

/-- read_bitmap: stride computation and dispatch on bit count; rows are
stored bottom-up in the stream, so the collected stream-order rows are
reversed into the grid. -/
def read_bitmap (f : cfile_t) (h : bmp_header_t) (img : image_t) :
    Option (image_t × cfile_t) :=
  let width := h.info.biWidth.toNat
  let height := h.info.biHeight.natAbs
  let stride := (width * h.info.biBitCount + 31) / 32 * 4
  let rowwise := fun (dec : List Nat → List pixcel_t) =>
    match read_rows stride dec height f with
    | none => none
    | some (rows, f1) => some ({ img with map := rows.reverse }, f1)
  if h.info.biBitCount = 32 then rowwise (fun buf => decode_32_row h buf 0 width)
  else if h.info.biBitCount = 24 then rowwise (fun buf => decode_24_row buf 0 width)
  else if h.info.biBitCount = 16 then rowwise (fun buf => decode_16_row h buf 0 width)
  else if h.info.biBitCount = 8 ∨ h.info.biBitCount = 4 ∨ h.info.biBitCount = 1 then
    if h.info.biCompression = 0 then
      rowwise (decode_index_row h.info.biBitCount (2 ^ h.info.biBitCount - 1) width)
    else read_bitmap_rle f h img
  else none

/-- Row-order fixup of read_bmp_stream: a negative header height means the
stream was top-down, so the freshly decoded grid is flipped (the C swaps
row pointers `i ↔ height-1-i`, i.e. reverses the row list). -/
def orient_rows (neg_height : Bool) (m : List (List pixcel_t)) : List (List pixcel_t) :=
  if neg_height then m.reverse else m

/-- read_bmp_stream: file header, info header, color-type selection,
allocation, palette for indexed images, seek to the pixel data, bitmap
decode, and the top-down flip. -/
def read_bmp_stream (f : cfile_t) : Option image_t :=
  match read_file_header f with
  | none => none
  | some (fh, f1) =>
    match read_info_header f1 { zero_bmp_header with file := fh } with
    | none => none
    | some (h, f2) =>
      let color_type :=
        if h.info.biBitCount ≤ 8 then color_type_t.index
        else if h.cm3.mask = 0 then color_type_t.rgb
        else color_type_t.rgba
      let height := h.info.biHeight.natAbs
      let img0 := allocate_image h.info.biWidth.toNat height color_type
      let withPal : Option (image_t × cfile_t) :=
        if color_type = color_type_t.index then read_palette f2 h img0
        else some (img0, f2)
      match withPal with
      | none => none
      | some (img1, f3) =>
        match read_bitmap (f3.fseek h.file.bfOffBits) h img1 with
        | none => none
        | some (img2, _) =>
          some { img2 with map := orient_rows (decide (h.info.biHeight < 0)) img2.map }

/-- A C `FILE*` opened for writing: the bytes written so far and the
cursor.  A write splices into the data at the cursor (the writer only ever
appends, or rewinds to offset 0 to rewrite the header). -/
structure wfile_t where
  data : List Nat
  pos : Nat
deriving DecidableEq, Repr

/-- C `fwrite` of a byte list at the cursor. -/
def wfile_t.fwrite (f : wfile_t) (bs : List Nat) : wfile_t :=
  ⟨f.data.take f.pos ++ bs ++ f.data.drop (f.pos + bs.length), f.pos + bs.length⟩

/-- C `fseek(fp, 0, SEEK_SET)`. -/
def wfile_t.fseek0 (f : wfile_t) : wfile_t :=
  ⟨f.data, 0⟩

/-- bs_write16: two little-endian bytes. -/
def wr16 (v : Nat) : List Nat :=
  [v % 256, v / 256 % 256]

/-- bs_write32: four little-endian bytes. -/
def wr32 (v : Nat) : List Nat :=
  [v % 256, v / 256 % 256, v / 65536 % 256, v / 16777216 % 256]

/-- write_header: the serialized file plus info header; the 124-byte V5
dialect with fixed A8R8G8B8 masks for 32 bpp, the 40-byte dialect
otherwise; the compression tag depends on the bit count and the compress
flag. -/
def write_header_bytes (img : image_t) (bc image_size : Nat) (compress : Bool) : List Nat :=
  let info_size := if bc = 32 then 124 else 40
  let header_size := 14 + info_size
  let palette_size := if bc ≤ 8 then 2 ^ bc * 4 else 0
  wr16 0x4D42 ++
  wr32 (header_size + palette_size + image_size) ++
  wr16 0 ++ wr16 0 ++
  wr32 (header_size + palette_size) ++
  wr32 info_size ++
  wr32 img.width ++
  wr32 img.height ++
  wr16 1 ++
  wr16 bc ++
  wr32 (if bc = 32 then 3
        else if bc = 8 ∧ compress then 1
        else if bc = 4 ∧ compress then 2
        else 0) ++
  wr32 image_size ++
  wr32 0 ++ wr32 0 ++
  wr32 img.palette_num ++
  wr32 0 ++
  (if bc = 32 then
    wr32 0xff000000 ++ wr32 0xff0000 ++ wr32 0xff00 ++ wr32 0xff ++
    wr32 0x73524742 ++
    wr32 0 ++ wr32 0 ++ wr32 0 ++ wr32 0 ++ wr32 0 ++ wr32 0 ++ wr32 0 ++ wr32 0 ++ wr32 0 ++
    wr32 0 ++ wr32 0 ++ wr32 0 ++
    wr32 2 ++
    wr32 0 ++ wr32 0 ++ wr32 0
  else [])

/-- write_palette: b, g, r, 0 per used entry into a zeroed buffer of
`(1 << bc) * 4` bytes (writes beyond the buffer are dropped by the byte
stream). -/
def write_palette_bytes (img : image_t) (bc : Nat) : List Nat :=
  let size := 2 ^ bc * 4
  (((img.palette.map (fun c => [color_t.b c % 256, color_t.g c % 256, color_t.r c % 256, 0])).flatten
    ++ List.replicate size 0).take size)

/-- Pad the bytes of one written row to the stride of the zeroed row
buffer (and drop anything past it, as the byte stream would). -/
def row_pad (stride : Nat) (bytes : List Nat) : List Nat :=
  (bytes ++ List.replicate stride 0).take stride

/-- write_bitmap_24: rows bottom-up, bytes b, g, r per pixel. -/
def write_bitmap_24_bytes (img : image_t) (stride : Nat) : List Nat :=
  (img.map.reverse.map (fun row =>
    row_pad stride ((row.map (fun p => [p.b2 % 256, p.b1 % 256, p.b0 % 256])).flatten))).flatten

/-- write_bitmap_32: rows bottom-up, bytes a, b, g, r per pixel. -/
def write_bitmap_32_bytes (img : image_t) (stride : Nat) : List Nat :=
  (img.map.reverse.map (fun row =>
    row_pad stride ((row.map (fun p =>
      [p.b3 % 256, p.b2 % 256, p.b1 % 256, p.b0 % 256])).flatten))).flatten

/-- Bit-packing loop shared by write_bitmap_index and the RLE encoder's
raw-row construction: indices most-significant-bits-first, the partial
byte flushed at the end of the row. -/
def pack_index_aux (bc : Nat) : List pixcel_t → Nat → Nat → List Nat
  | [], shift, tmp => if shift ≠ 8 then [tmp] else []
  | p :: ps, shift, tmp =>
    let shift' := shift - bc
    let tmp' := (tmp ||| (p.iview <<< shift')) % 256
    if shift' = 0 then tmp' :: pack_index_aux bc ps 8 0
    else pack_index_aux bc ps shift' tmp'

/-- Packed bytes of one pixel row at `bc` bits per index. -/
def pack_index_row (bc : Nat) (row : List pixcel_t) : List Nat :=
  pack_index_aux bc row 8 0

/-- write_bitmap_index: rows bottom-up, packed and padded to the stride. -/
def write_bitmap_index_bytes (img : image_t) (bc stride : Nat) : List Nat :=
  (img.map.reverse.map (fun row => row_pad stride (pack_index_row bc row))).flatten

/-- Run scanner of write_bitmap_rle: length of the run of bytes equal to
`v` from position `p`, capped by the remaining row and by `count_max`
(the fuel mirrors the `count < count_max` loop bound exactly). -/
def run_len_aux (raw : List Nat) (v : Nat) : Nat → Nat → Nat
  | _, 0 => 0
  | p, fuel + 1 =>
    if p < raw.length ∧ raw.getD p 0 = v then 1 + run_len_aux raw v (p + 1) fuel
    else 0

/-- The `step[x]` value of write_bitmap_rle at a run start `x`. -/
def step_at (raw : List Nat) (cmax x : Nat) : Nat :=
  run_len_aux raw (raw.getD x 0) x cmax

/-- Accumulation loop of the absolute-mode candidate: gather short runs
(`step ≤ 2`) into `count`, counting the singleton runs in `reduction`.
`count` grows by at least one per iteration, so `cmax + 1` fuel is
exact. -/
def accum_aux (raw : List Nat) (cmax x : Nat) : Nat → Nat → Nat → Nat × Nat
  | count, reduction, 0 => (count, reduction)
  | count, reduction, fuel + 1 =>
    if x + count < raw.length ∧ count < cmax ∧ step_at raw cmax (x + count) ≤ 2 then
      accum_aux raw cmax x (count + step_at raw cmax (x + count))
        (reduction + if step_at raw cmax (x + count) = 1 then 1 else 0) fuel
    else (count, reduction)

/-- An RLE output record: an encoded run `(count, value)` or an absolute
run `(0, count, bytes…)`. -/
inductive rle_rec
  | run (num val : Nat)
  | abs (num : Nat) (bytes : List Nat)
deriving DecidableEq, Repr

/-- The pixel count an RLE record claims. -/
def rle_rec.claimed : rle_rec → Nat
  | .run num _ => num
  | .abs num _ => num

/-- Emission of the sequence of tiny encoded runs when absolute mode is
not worthwhile (`reduction ≤ 2`), stepping through the accumulated
region's runs. -/
def enc_singles (raw : List Nat) (cmax cpb width x count : Nat) :
    Nat → Nat → List (Nat × rle_rec)
  | 0, _ => []
  | fuel + 1, i =>
    if i < x + count then
      let st := step_at raw cmax i
      let num0 := st * cpb
      let num := if num0 + i * cpb > width then num0 - 1 else num0
      (i, rle_rec.run num (raw.getD i 0)) :: enc_singles raw cmax cpb width x count fuel (i + st)
    else []

/-- Compression loop of write_bitmap_rle over one packed row, returning
each record together with the raw-byte position at which it starts.  Every
iteration advances `x` by at least one byte for the reachable parameters,
so `raw.length + 1` fuel suffices. -/
def encode_row_aux (raw : List Nat) (cmax cpb width : Nat) : Nat → Nat → List (Nat × rle_rec)
  | 0, _ => []
  | fuel + 1, x =>
    if x < raw.length then
      if step_at raw cmax x < 2 then
        let cr := accum_aux raw cmax x 0 0 (cmax + 1)
        let count := if cr.1 * cpb > 255 then cr.1 - 2 else cr.1
        if cr.2 > 2 then
          let num0 := count * cpb
          let num := if num0 + x * cpb > width then num0 - 1 else num0
          (x, rle_rec.abs num ((raw.drop x).take count)) ::
            encode_row_aux raw cmax cpb width fuel (x + count)
        else
          enc_singles raw cmax cpb width x count (count + 1) x ++
            encode_row_aux raw cmax cpb width fuel (x + count)
      else
        let count := step_at raw cmax x
        let num0 := count * cpb
        let num := if num0 + x * cpb > width then num0 - 1 else num0
        (x, rle_rec.run num (raw.getD x 0)) :: encode_row_aux raw cmax cpb width fuel (x + count)
    else []

/-- Records of one row of write_bitmap_rle, with their byte positions. -/
def encode_row (raw : List Nat) (cmax cpb width : Nat) : List (Nat × rle_rec) :=
  encode_row_aux raw cmax cpb width (raw.length + 1) 0

/-- Serialization of one record into the row's byte stream. -/
def serialize_rec : rle_rec → List Nat
  | .run num val => [num % 256, val % 256]
  | .abs num bytes =>
    0 :: num % 256 :: ((bytes.map (· % 256)) ++ (if bytes.length % 2 = 1 then [0] else []))

/-- Serialized bytes of one RLE row, ending in end-of-line (or
end-of-bitmap for the image's last row); the row buffer holds
`2 * stride` bytes and the byte stream drops anything past it. -/
def rle_row_bytes (raw : List Nat) (cmax cpb width stride : Nat) (last_row : Bool) : List Nat :=
  ((((encode_row raw cmax cpb width).map (fun pr => serialize_rec (Prod.snd pr))).flatten) ++
    (if last_row then [0, 1] else [0, 0])).take (2 * stride)

/-- All RLE rows (given bottom-up), the last one ending in
end-of-bitmap. -/
def rle_encode_rows (cmax cpb width stride : Nat) : List (List Nat) → List Nat
  | [] => []
  | [raw] => rle_row_bytes raw cmax cpb width stride true
  | raw :: rest =>
    rle_row_bytes raw cmax cpb width stride false ++ rle_encode_rows cmax cpb width stride rest

/-- write_bitmap_rle: pack each row, compress bottom-up, then rewind and
rewrite the header with the actual image size and the RLE compression
tag. -/
def write_bitmap_rle (f : wfile_t) (img : image_t) (bc : Nat) : Option wfile_t :=
  let cpb := 8 / bc
  let cmax := 255 / cpb
  let stride := (img.width * bc + 7) / 8
  let body := rle_encode_rows cmax cpb img.width stride (img.map.reverse.map (pack_index_row bc))
  let f1 := (f.fwrite body).fseek0
  some (f1.fwrite (write_header_bytes img bc body.length true))

/-- write_bitmap: stride and dispatch on the bit count; RLE only for 4 and
8 bpp when compression is requested. -/
def write_bitmap (f : wfile_t) (img : image_t) (bc : Nat) (compress : Bool) : Option wfile_t :=
  let stride := (img.width * bc + 31) / 32 * 4
  if bc = 32 then some (f.fwrite (write_bitmap_32_bytes img stride))
  else if bc = 24 then some (f.fwrite (write_bitmap_24_bytes img stride))
  else if bc = 8 ∨ bc = 4 then
    if compress then write_bitmap_rle f img bc
    else some (f.fwrite (write_bitmap_index_bytes img bc stride))
  else if bc = 1 then some (f.fwrite (write_bitmap_index_bytes img bc stride))
  else none

/-- Mode handling at the start of write_bmp_stream: a Grayscale image is
converted to Indexed on a clone (the caller's image is never written
through); the bit count is then chosen from the color type — 1/4/8 by
palette size for Indexed, 24 for RGB, 32 for RGBA.  No other conversion is
applied. -/
def write_target (img : image_t) : Option (image_t × Nat) :=
  match (if img.color_type = color_type_t.gray
         then image_gray_to_index (clone_image img)
         else some img) with
  | none => none
  | some w =>
    match w.color_type with
    | color_type_t.index =>
      some (w, if w.palette_num ≤ 2 then 1 else if w.palette_num ≤ 16 then 4 else 8)
    | color_type_t.rgb => some (w, 24)
    | color_type_t.rgba => some (w, 32)
    | color_type_t.gray => none

/-- write_bmp_stream.  The second component is the caller's image after
the call: the C never writes through the caller's pointer (the Grayscale
conversion mutates only the clone), so it is returned unchanged. -/
def write_bmp_stream (f : wfile_t) (img : image_t) (compress : Bool) :
    Option wfile_t × image_t :=
  match write_target img with
  | none => (none, img)
  | some (w, bc) =>
    let size := (w.width * bc + 31) / 32 * 4 * w.height
    let f1 := f.fwrite (write_header_bytes w bc size compress)
    let f2 := if bc ≤ 8 then f1.fwrite (write_palette_bytes w bc) else f1
    (write_bitmap f2 w bc compress, img)

/-- Concrete BMP stream: 1×1, 8 bpp, uncompressed, pixel-data offset 58,
so the palette area holds a single entry; the pixel byte is 5, an index
with no palette entry behind it. -/
def c2_stream : List Nat :=
  [66, 77, 0, 0, 0, 0, 0, 0, 0, 0, 58, 0, 0, 0,
   40, 0, 0, 0, 1, 0, 0, 0, 1, 0, 0, 0, 1, 0, 8, 0,
   0, 0, 0, 0, 0, 0, 0, 0, 0, 0, 0, 0, 0, 0, 0, 0, 0, 0, 0, 0, 0, 0, 0, 0,
   10, 20, 30, 0,
   5, 0, 0, 0]

/-- Concrete BMP stream: 2×2, 8 bpp, RLE8, pixel-data offset 62, palette of
two entries; the RLE data is a single delta record `(0, 2, 200, 0)` that
moves the column cursor to 200, far beyond the width of 2. -/
def c1_stream : List Nat :=
  [66, 77, 0, 0, 0, 0, 0, 0, 0, 0, 62, 0, 0, 0,
   40, 0, 0, 0, 2, 0, 0, 0, 2, 0, 0, 0, 1, 0, 8, 0,
   1, 0, 0, 0, 0, 0, 0, 0, 0, 0, 0, 0, 0, 0, 0, 0, 0, 0, 0, 0, 0, 0, 0, 0,
   10, 20, 30, 0, 40, 50, 60, 0,
   0, 2, 200, 0]

/-- Concrete BMP stream: 1×2, 24 bpp, height +2 (bottom-up); the payload's
first stream row is the pixel (r,g,b) = (1,2,3), the second (4,5,6). -/
def c6_stream_up : List Nat :=
  [66, 77, 0, 0, 0, 0, 0, 0, 0, 0, 54, 0, 0, 0,
   40, 0, 0, 0, 1, 0, 0, 0, 2, 0, 0, 0, 1, 0, 24, 0,
   0, 0, 0, 0, 0, 0, 0, 0, 0, 0, 0, 0, 0, 0, 0, 0, 0, 0, 0, 0, 0, 0, 0, 0,
   3, 2, 1, 0, 6, 5, 4, 0]

/-- The same stream with header height −2 (top-down), identical payload. -/
def c6_stream_down : List Nat :=
  [66, 77, 0, 0, 0, 0, 0, 0, 0, 0, 54, 0, 0, 0,
   40, 0, 0, 0, 1, 0, 0, 0, 254, 255, 255, 255, 1, 0, 24, 0,
   0, 0, 0, 0, 0, 0, 0, 0, 0, 0, 0, 0, 0, 0, 0, 0, 0, 0, 0, 0, 0, 0, 0, 0,
   3, 2, 1, 0, 6, 5, 4, 0]

/-! Helper lemmas. -/

/-- On `uint8_t` inputs the alpha-blend quotient fits in a byte, so the
narrowing store of the C code does not truncate. -/
theorem blend_channel_eq (s b a : Nat) (hs : s < 256) (hb : b < 256) (ha : a < 256) :
    blend_channel s b a = (s * a + b * (255 - a) + 127) / 255 := by
  unfold blend_channel
  have key : s * a + b * (255 - a) ≤ 255 * 255 := by
    calc s * a + b * (255 - a)
        ≤ 255 * a + 255 * (255 - a) :=
          Nat.add_le_add (Nat.mul_le_mul_right a (by omega)) (Nat.mul_le_mul_right _ (by omega))
      _ = 255 * (a + (255 - a)) := (Nat.mul_add 255 a (255 - a)).symm
      _ ≤ 255 * 255 := Nat.mul_le_mul_left 255 (by omega)
  have hlt : (s * a + b * (255 - a) + 127) / 255 < 256 := by
    apply Nat.div_lt_of_lt_mul
    omega
  show (s * a + b * (255 - a) + 127) / 255 % 256 = _
  exact Nat.mod_eq_of_lt hlt

/-- The per-pixel blend of the code agrees with the spec formula on
well-formed pixels and backgrounds. -/
theorem blend_pixel_eq (bg : color_t) (p : pixcel_t) (hp : p.wf) (hbg : bg.wf) :
    blend_pixel bg p = spec_composite_pixel bg p := by
  obtain ⟨h0, h1, h2, h3⟩ := hp
  obtain ⟨hr, hg, hb, _⟩ := hbg
  unfold blend_pixel spec_composite_pixel
  rw [blend_channel_eq _ _ _ h0 hr h3, blend_channel_eq _ _ _ h1 hg h3,
      blend_channel_eq _ _ _ h2 hb h3]

/-! Claim theorems. -/

/-- C8: composite_onto succeeds only on RGBA-mode images and fails for
every other mode; on success each channel becomes
`(src·a + bg·(255−a) + 127) / 255` in exact integer arithmetic, the alpha
is forced to 255, and the mode becomes RGB. -/
theorem c8_composite_onto (img : image_t) (bg : color_t) :
    (img.color_type ≠ color_type_t.rgba → image_rgba_to_rgb img bg = none) ∧
    (img.color_type = color_type_t.rgba → img.wf → bg.wf →
      image_rgba_to_rgb img bg =
        some { img with color_type := color_type_t.rgb,
                        map := img.map.map (fun row => row.map (spec_composite_pixel bg)) }) := by
  constructor
  · intro h
    simp [image_rgba_to_rgb, h]
  · intro hty hwf hbg
    simp only [image_rgba_to_rgb, hty, ne_eq, not_true_eq_false, if_false, Option.some.injEq]
    have hmap : img.map.map (fun row => row.map (blend_pixel bg)) =
        img.map.map (fun row => row.map (spec_composite_pixel bg)) := by
      apply List.map_congr_left
      intro row hrow
      apply List.map_congr_left
      intro p hp
      exact blend_pixel_eq bg p ((hwf.2.1 row hrow).2 p hp) hbg
    rw [hmap]

/-- Witness for C8 at RGBA(255,0,0,128) on a white background. -/
theorem c8_composite_onto_witness :
    image_rgba_to_rgb ⟨1, 1, color_type_t.rgba, [], [[⟨255, 0, 0, 128⟩]]⟩
        (color_from_rgb 255 255 255) =
      some ⟨1, 1, color_type_t.rgb, [],
            [[⟨255, 127, 127, 255⟩]]⟩ := by
  have h := (c8_composite_onto ⟨1, 1, color_type_t.rgba, [], [[⟨255, 0, 0, 128⟩]]⟩
      (color_from_rgb 255 255 255)).2 rfl (by decide) (by decide)
  exact h.trans (by decide)

/-- C7 counterexample: `to_grayscale` on RGB(100,150,200) stores intensity
141, not the 147 the claim asserts (the weighted sum is 140.75, not
146.55). -/
theorem c7_grayscale_counterexample :
    image_rgb_to_gray ⟨1, 1, color_type_t.rgb, [], [[⟨100, 150, 200, 255⟩]]⟩ =
      some ⟨1, 1, color_type_t.gray, [], [[⟨141, 0, 0, 0⟩]]⟩ ∧ (141 : Nat) ≠ 147 :=
  ⟨by decide, by decide⟩

/-- C7 amended: `to_grayscale` evaluates
`(uint8_t)(0.299f·R + 0.587f·G + 0.114f·B + 0.5f)` in single precision;
on RGB(100,150,200) this yields 141, which also equals the exact
round-half-up value `⌊140.75 + 0.5⌋`; at exact ties the single-precision
result can fall below the round-half-up formula (RGB(4,40,16): float 26,
exact formula 27). -/
theorem c7_grayscale_amended :
    image_rgb_to_gray ⟨1, 1, color_type_t.rgb, [], [[⟨100, 150, 200, 255⟩]]⟩ =
      some ⟨1, 1, color_type_t.gray, [], [[⟨141, 0, 0, 0⟩]]⟩ ∧
    spec_luma 100 150 200 = 141 ∧
    gray_luma 4 40 16 = 26 ∧ spec_luma 4 40 16 = 27 :=
  ⟨by decide, by decide, by decide, by decide⟩

/-- C10: writing an image to BMP leaves the caller's image unchanged for
every color mode: the Grayscale conversion needed for output happens on an
internal clone, and no other path touches the image. -/
theorem c10_write_preserves_image :
    ∀ (f : wfile_t) (img : image_t) (compress : Bool),
      (write_bmp_stream f img compress).2 = img := by
  intro f img compress
  cases h : write_target img with
  | none => simp [write_bmp_stream, h]
  | some wbc => simp [write_bmp_stream, h]

/-- C1 counterexample: an RLE8 stream whose delta record moves the column
cursor to 200 on a width-2 image decodes successfully (the untouched cells
stay zero), and the decode loop, resumed at the out-of-range state the
delta produced, terminates with success rather than `TruncatedData`. -/
theorem c1_rle_counterexample :
    read_bmp_stream ⟨c1_stream, 0⟩ =
      some ⟨2, 2, color_type_t.index, [⟨30, 20, 10, 255⟩, ⟨60, 50, 40, 255⟩],
            [[⟨0, 0, 0, 0⟩, ⟨0, 0, 0, 0⟩], [⟨0, 0, 0, 0⟩, ⟨0, 0, 0, 0⟩]]⟩ ∧
    rle_loop 8 255 2 5 ⟨c1_stream, 66⟩ 1 200
        (List.replicate 2 (List.replicate 2 (pixcel_t.fresh 0))) =
      some (List.replicate 2 (List.replicate 2 (pixcel_t.fresh 0)), ⟨c1_stream, 66⟩) :=
  ⟨by decide, by decide⟩

/-- C1 amended: the RLE decoder fails only when a read runs past the
supplied stream; a column cursor beyond the width or a negative row cursor
terminates decoding with success. -/
theorem c1_rle_amended (bc mask width fuel : Nat) (f : cfile_t) (y : Int) (x : Nat)
    (m : List (List pixcel_t)) :
    (¬(0 ≤ y ∧ x ≤ width) →
      rle_loop bc mask width (fuel + 1) f y x m = some (m, f)) ∧
    (0 ≤ y → x ≤ width → f.data.length < f.pos + 2 →
      rle_loop bc mask width (fuel + 1) f y x m = none) := by
  constructor
  · intro h
    simp only [rle_loop, if_neg h]
  · intro h0 h1 h2
    have hcond : 0 ≤ y ∧ x ≤ width := ⟨h0, h1⟩
    have hread : f.fread 2 = none := by
      unfold cfile_t.fread
      rw [if_neg]
      omega
    simp only [rle_loop, if_pos hcond, hread]

/-- Witness for C1 amended at concrete out-of-range and truncated
states. -/
theorem c1_rle_amended_witness :
    rle_loop 8 255 2 1 ⟨[], 0⟩ 1 3 [] = some ([], ⟨[], 0⟩) ∧
    rle_loop 8 255 2 1 ⟨[], 0⟩ 1 0 [] = none :=
  ⟨(c1_rle_amended 8 255 2 0 ⟨[], 0⟩ 1 3 []).1 (by decide),
   (c1_rle_amended 8 255 2 0 ⟨[], 0⟩ 1 0 []).2 (by decide) (by decide) (by decide)⟩

/-- C3 counterexample: an RGB image is not quantized by the BMP writer —
the write target is the unmodified RGB image at 24 bits per pixel, and the
emitted header's bit-count byte (offset 28) is 24, not an indexed depth. -/
theorem c3_write_rgb_counterexample :
    write_target ⟨2, 1, color_type_t.rgb, [], [[⟨1, 2, 3, 255⟩, ⟨4, 5, 6, 255⟩]]⟩ =
      some (⟨2, 1, color_type_t.rgb, [], [[⟨1, 2, 3, 255⟩, ⟨4, 5, 6, 255⟩]]⟩, 24) ∧
    (Option.map (fun w => w.data.getD 28 0)
      (write_bmp_stream ⟨[], 0⟩
        ⟨2, 1, color_type_t.rgb, [], [[⟨1, 2, 3, 255⟩, ⟨4, 5, 6, 255⟩]]⟩ false).1) = some 24 ∧
    ¬((24 : Nat) ≤ 8) :=
  ⟨by decide, by decide, by decide⟩

/-- C3 amended: the BMP writer never invokes the Palette Builder: RGB
images are written directly at 24 bpp and RGBA at 32 bpp; only Grayscale
images are first converted (on a clone) to indexed form, via the fixed
identity grayscale palette of image_gray_to_index, and then written at 8
bpp. -/
theorem c3_write_routing (img : image_t) :
    (img.color_type = color_type_t.rgb → write_target img = some (img, 24)) ∧
    (img.color_type = color_type_t.rgba → write_target img = some (img, 32)) ∧
    (img.color_type = color_type_t.gray →
      write_target img =
        (image_gray_to_index (clone_image img)).map (fun w => (w, 8))) := by
  refine ⟨?_, ?_, ?_⟩
  · intro h
    simp [write_target, h]
  · intro h
    simp [write_target, h]
  · intro h
    have hclone : (clone_image img).color_type = color_type_t.gray := h
    simp only [write_target, h, if_pos rfl, image_gray_to_index, hclone, ne_eq,
      not_true_eq_false, if_false, Option.map_some]
    simp [image_t.palette_num, gray_identity_palette]

/-- Witness for C3 amended at concrete RGB, RGBA and Grayscale images. -/
theorem c3_write_routing_witness :
    write_target ⟨1, 1, color_type_t.rgb, [], [[⟨7, 8, 9, 255⟩]]⟩ =
      some (⟨1, 1, color_type_t.rgb, [], [[⟨7, 8, 9, 255⟩]]⟩, 24) ∧
    write_target ⟨1, 1, color_type_t.rgba, [], [[⟨7, 8, 9, 10⟩]]⟩ =
      some (⟨1, 1, color_type_t.rgba, [], [[⟨7, 8, 9, 10⟩]]⟩, 32) ∧
    write_target ⟨1, 1, color_type_t.gray, [], [[⟨7, 0, 0, 0⟩]]⟩ =
      (image_gray_to_index (clone_image ⟨1, 1, color_type_t.gray, [], [[⟨7, 0, 0, 0⟩]]⟩)).map
        (fun w => (w, 8)) :=
  ⟨(c3_write_routing _).1 rfl, (c3_write_routing _).2.1 rfl, (c3_write_routing _).2.2 rfl⟩

/-- Transcription of read_info_header's final validity check into the
specification's phrasing. -/
theorem info_header_valid_iff (i : BITMAPINFOHEADER) :
    info_header_valid i = true ↔
      ((i.biBitCount = 1 ∨ i.biBitCount = 4 ∨ i.biBitCount = 8 ∨
        i.biBitCount = 16 ∨ i.biBitCount = 24 ∨ i.biBitCount = 32) ∧
       (i.biCompression = 0 ∨
        (i.biCompression = 2 ∧ i.biBitCount = 4) ∨
        (i.biCompression = 1 ∧ i.biBitCount = 8) ∨
        (i.biCompression = 3 ∧ (i.biBitCount = 16 ∨ i.biBitCount = 32))) ∧
       0 < i.biWidth ∧ i.biHeight ≠ 0 ∧ i.biHeight ≠ -2147483648) := by
  unfold info_header_valid
  simp only [Bool.and_eq_true, Bool.or_eq_true, beq_iff_eq, Bool.not_eq_true',
    Bool.or_eq_false_iff, beq_eq_false_iff_ne, decide_eq_true_eq,
    decide_eq_false_iff_not, not_le, ne_eq]
  tauto

/-- C5: given that the dialect-level parse succeeds and produces a header,
BMP info-header reading succeeds if and only if that header satisfies all
of: bits-per-pixel in {1,4,8,16,24,32}; compression tag compatible with
bits-per-pixel (RLE4 only with 4 bpp, RLE8 only with 8 bpp, bit-mask mode
only with 16 or 32 bpp, uncompressed always); width positive; height
nonzero and not the most negative 32-bit value. -/
theorem c5_header_validation (f : cfile_t) (h h' : bmp_header_t) (f' : cfile_t) :
    read_info_header f h = some (h', f') ↔
      (parse_info_dialect f h = some (h', f') ∧
       ((h'.info.biBitCount = 1 ∨ h'.info.biBitCount = 4 ∨ h'.info.biBitCount = 8 ∨
         h'.info.biBitCount = 16 ∨ h'.info.biBitCount = 24 ∨ h'.info.biBitCount = 32) ∧
        (h'.info.biCompression = 0 ∨
         (h'.info.biCompression = 2 ∧ h'.info.biBitCount = 4) ∨
         (h'.info.biCompression = 1 ∧ h'.info.biBitCount = 8) ∨
         (h'.info.biCompression = 3 ∧ (h'.info.biBitCount = 16 ∨ h'.info.biBitCount = 32))) ∧
        0 < h'.info.biWidth ∧ h'.info.biHeight ≠ 0 ∧ h'.info.biHeight ≠ -2147483648)) := by
  constructor
  · intro hl
    unfold read_info_header at hl
    cases hq : parse_info_dialect f h with
    | none =>
      rw [hq] at hl
      exact absurd hl (by simp)
    | some pr =>
      obtain ⟨h0, f0⟩ := pr
      rw [hq] at hl
      dsimp only at hl
      by_cases hv : info_header_valid h0.info
      · rw [if_pos hv] at hl
        simp only [Option.some.injEq, Prod.mk.injEq] at hl
        obtain ⟨rfl, rfl⟩ := hl
        exact ⟨rfl, (info_header_valid_iff h0.info).mp hv⟩
      · rw [if_neg hv] at hl
        exact absurd hl (by simp)
  · rintro ⟨hp, hpred⟩
    unfold read_info_header
    rw [hp]
    dsimp only
    rw [if_pos ((info_header_valid_iff h'.info).mpr hpred)]

/-- C6: decoded rows are the stream-order rows reversed; the top-down flip
of a negative header height restores stream order, so decoded row 0 is the
first stream-order row, while a positive height leaves decoded row 0 the
last stream-order row.  The two concrete streams differ only in the sign
of the header height. -/
theorem c6_top_down_flag :
    (∀ (stride : Nat) (dec : List Nat → List pixcel_t) (n : Nat) (f f' : cfile_t)
        (rows : List (List pixcel_t)),
      read_rows stride dec n f = some (rows, f') →
        (orient_rows true rows.reverse).head? = rows.head? ∧
        (orient_rows false rows.reverse).head? = rows.getLast?) ∧
    read_bmp_stream ⟨c6_stream_down, 0⟩ =
      some ⟨1, 2, color_type_t.rgb, [], [[⟨1, 2, 3, 255⟩], [⟨4, 5, 6, 255⟩]]⟩ ∧
    read_bmp_stream ⟨c6_stream_up, 0⟩ =
      some ⟨1, 2, color_type_t.rgb, [], [[⟨4, 5, 6, 255⟩], [⟨1, 2, 3, 255⟩]]⟩ := by
  refine ⟨?_, by decide, by decide⟩
  intro stride dec n f f' rows _
  constructor
  · simp [orient_rows]
  · simp [orient_rows, List.head?_reverse]

/-- Witness for C6 at a concrete two-row stream decode. -/
theorem c6_top_down_flag_witness :
    (orient_rows true ([[pixcel_t.fresh 9], [pixcel_t.fresh 8]] :
        List (List pixcel_t)).reverse).head? = some [pixcel_t.fresh 9] ∧
    (orient_rows false ([[pixcel_t.fresh 9], [pixcel_t.fresh 8]] :
        List (List pixcel_t)).reverse).head? =
      ([[pixcel_t.fresh 9], [pixcel_t.fresh 8]] : List (List pixcel_t)).getLast? :=
  c6_top_down_flag.1 1 (fun buf => [pixcel_t.fresh (rd8 buf 0)]) 2 ⟨[9, 8], 0⟩ ⟨[9, 8], 2⟩
    [[pixcel_t.fresh 9], [pixcel_t.fresh 8]] (by decide)

/-- The spec-side palette never shrinks while scanning. -/
theorem first_seen_mono (cs : List color_t) :
    ∀ pal, pal.length ≤ (first_seen_palette pal cs).length := by
  induction cs with
  | nil => intro pal; simp [first_seen_palette]
  | cons c cs ih =>
    intro pal
    simp only [first_seen_palette]
    by_cases h : c ∈ pal
    · rw [if_pos h]
      exact ih pal
    · rw [if_neg h]
      calc pal.length ≤ (pal ++ [c]).length := by simp
        _ ≤ _ := ih _

/-- The spec-side palette stays duplicate-free. -/
theorem first_seen_nodup (cs : List color_t) :
    ∀ pal, pal.Nodup → (first_seen_palette pal cs).Nodup := by
  induction cs with
  | nil => intro pal h; exact h
  | cons c cs ih =>
    intro pal h
    simp only [first_seen_palette]
    by_cases hc : c ∈ pal
    · rw [if_pos hc]
      exact ih pal h
    · rw [if_neg hc]
      refine ih _ ?_
      rw [List.nodup_append]
      refine ⟨h, List.nodup_singleton c, ?_⟩
      intro a ha hb
      rw [List.mem_singleton] at hb
      subst hb
      exact hc ha

/-- The spec-side palette collects exactly the colors seen so far. -/
theorem first_seen_toFinset (cs : List color_t) :
    ∀ pal, (first_seen_palette pal cs).toFinset = pal.toFinset ∪ cs.toFinset := by
  induction cs with
  | nil => intro pal; simp [first_seen_palette]
  | cons c cs ih =>
    intro pal
    simp only [first_seen_palette, List.toFinset_cons]
    by_cases hc : c ∈ pal
    · rw [if_pos hc, ih]
      ext x
      simp only [Finset.mem_union, List.mem_toFinset, Finset.mem_insert]
      constructor
      · rintro (h | h)
        · exact Or.inl h
        · exact Or.inr (Or.inr h)
      · rintro (h | rfl | h)
        · exact Or.inl h
        · exact Or.inl hc
        · exact Or.inr h
    · rw [if_neg hc, ih, List.toFinset_append]
      ext x
      simp only [Finset.mem_union, List.mem_toFinset, List.toFinset_cons, Finset.mem_insert,
        List.mem_singleton, List.toFinset_nil, Finset.mem_singleton, Finset.not_mem_empty]
      tauto

/-- The capped palette build of image_rgb_to_index fails exactly when the
uncapped spec-side scan exceeds 256 colors. -/
theorem build_palette_none_iff (cs : List color_t) :
    ∀ pal, pal.length ≤ 256 →
      (build_palette pal cs = none ↔ 256 < (first_seen_palette pal cs).length) := by
  induction cs with
  | nil =>
    intro pal h
    simp only [build_palette, first_seen_palette]
    constructor
    · intro hx
      exact absurd hx (by simp)
    · omega
  | cons c cs ih =>
    intro pal hlen
    simp only [build_palette, palette_insert, first_seen_palette]
    by_cases hc : c ∈ pal
    · rw [if_pos hc, if_pos hc]
      exact ih pal hlen
    · rw [if_neg hc, if_neg hc]
      by_cases h256 : pal.length = 256
      · rw [if_pos h256]
        dsimp only
        have hm := first_seen_mono cs (pal ++ [c])
        simp only [List.length_append, List.length_singleton, h256] at hm
        constructor
        · intro _
          omega
        · intro _
          rfl
      · rw [if_neg h256]
        dsimp only
        exact ih (pal ++ [c]) (by simp; omega)

/-- A successful palette build yields the spec-side first-seen palette. -/
theorem build_palette_some (cs : List color_t) :
    ∀ pal pal', build_palette pal cs = some pal' → pal' = first_seen_palette pal cs := by
  induction cs with
  | nil =>
    intro pal pal' h
    simp only [build_palette, Option.some.injEq] at h
    simp [first_seen_palette, h]
  | cons c cs ih =>
    intro pal pal' h
    simp only [build_palette, palette_insert] at h
    simp only [first_seen_palette]
    by_cases hc : c ∈ pal
    · rw [if_pos hc] at h ⊢
      exact ih _ _ h
    · rw [if_neg hc] at h ⊢
      by_cases h256 : pal.length = 256
      · rw [if_pos h256] at h
        exact absurd h (by simp)
      · rw [if_neg h256] at h
        exact ih _ _ h

/-- Every scanned color is in the first-seen palette. -/
theorem first_seen_mem (cs : List color_t) (pal : List color_t) (c : color_t) (h : c ∈ cs) :
    c ∈ first_seen_palette pal cs := by
  have := first_seen_toFinset cs pal
  have hc : c ∈ (first_seen_palette pal cs).toFinset := by
    rw [this]
    exact Finset.mem_union_right _ (List.mem_toFinset.mpr h)
  exact List.mem_toFinset.mp hc

/-- C4: the Palette Builder fails if and only if the RGB image holds more
than 256 distinct colors (exact four-channel equality); on success the
attached palette lists the distinct colors in first-seen scan order
(characterized by the spec-side `first_seen_palette`), and every cell is
replaced by the index of its matching color. -/
theorem c4_palette_builder (img : image_t) (hty : img.color_type = color_type_t.rgb) :
    (image_rgb_to_index img = none ↔ 256 < (image_colors img).toFinset.card) ∧
    (∀ img', image_rgb_to_index img = some img' →
      img'.color_type = color_type_t.index ∧
      img'.palette = first_seen_palette [] (image_colors img) ∧
      img'.palette.Nodup ∧
      img'.palette.toFinset = (image_colors img).toFinset ∧
      img'.map = img.map.map (fun row =>
        row.map (fun p => pixcel_t.fresh (index_of_color img'.palette p.cview)))) := by
  have hnodup := first_seen_nodup (image_colors img) [] List.nodup_nil
  have hfin := first_seen_toFinset (image_colors img) []
  simp only [List.toFinset_nil, Finset.empty_union] at hfin
  have hcard : (first_seen_palette [] (image_colors img)).length =
      (image_colors img).toFinset.card := by
    rw [← hfin, List.toFinset_card_of_nodup hnodup]
  constructor
  · unfold image_rgb_to_index
    rw [if_neg (by simp [hty])]
    cases hb : build_palette [] (image_colors img) with
    | none =>
      dsimp only
      constructor
      · intro _
        rw [← hcard]
        exact (build_palette_none_iff (image_colors img) [] (by simp)).mp hb
      · intro _
        rfl
    | some pal =>
      dsimp only
      constructor
      · intro hx
        exact absurd hx (by simp)
      · intro hgt
        have := (build_palette_none_iff (image_colors img) [] (by simp)).mpr
          (by rw [hcard]; exact hgt)
        rw [hb] at this
        exact absurd this (by simp)
  · intro img' h
    unfold image_rgb_to_index at h
    rw [if_neg (by simp [hty])] at h
    cases hb : build_palette [] (image_colors img) with
    | none =>
      rw [hb] at h
      exact absurd h (by simp)
    | some pal =>
      rw [hb] at h
      simp only [Option.some.injEq] at h
      subst h
      have hpal : pal = first_seen_palette [] (image_colors img) :=
        build_palette_some (image_colors img) [] pal hb
      exact ⟨rfl, hpal, hpal ▸ hnodup, by rw [hpal, hfin], rfl⟩

/-- Witness for C4 at a concrete two-color RGB image. -/
theorem c4_palette_builder_witness :
    (image_rgb_to_index ⟨2, 1, color_type_t.rgb, [], [[⟨1, 2, 3, 255⟩, ⟨4, 5, 6, 255⟩]]⟩ = none ↔
      256 < (image_colors ⟨2, 1, color_type_t.rgb, [], [[⟨1, 2, 3, 255⟩, ⟨4, 5, 6, 255⟩]]⟩).toFinset.card) ∧
    (∀ img', image_rgb_to_index ⟨2, 1, color_type_t.rgb, [], [[⟨1, 2, 3, 255⟩, ⟨4, 5, 6, 255⟩]]⟩ =
        some img' →
      img'.color_type = color_type_t.index ∧
      img'.palette = first_seen_palette []
        (image_colors ⟨2, 1, color_type_t.rgb, [], [[⟨1, 2, 3, 255⟩, ⟨4, 5, 6, 255⟩]]⟩) ∧
      img'.palette.Nodup ∧
      img'.palette.toFinset =
        (image_colors ⟨2, 1, color_type_t.rgb, [], [[⟨1, 2, 3, 255⟩, ⟨4, 5, 6, 255⟩]]⟩).toFinset ∧
      img'.map = (⟨2, 1, color_type_t.rgb, [], [[⟨1, 2, 3, 255⟩, ⟨4, 5, 6, 255⟩]]⟩ : image_t).map.map
        (fun row => row.map (fun p => pixcel_t.fresh (index_of_color img'.palette p.cview)))) :=
  c4_palette_builder ⟨2, 1, color_type_t.rgb, [], [[⟨1, 2, 3, 255⟩, ⟨4, 5, 6, 255⟩]]⟩ rfl

/-- C2 counterexample: BMP reading returns an Indexed image whose only
pixel holds index 5 while the palette has a single entry, violating the
claimed invariant that every cell value is below the palette length. -/
theorem c2_read_breaks_invariant :
    read_bmp_stream ⟨c2_stream, 0⟩ =
      some ⟨1, 1, color_type_t.index, [⟨30, 20, 10, 255⟩], [[⟨5, 0, 0, 0⟩]]⟩ ∧
    ¬(∀ row ∈ ([[⟨5, 0, 0, 0⟩]] : List (List pixcel_t)), ∀ p ∈ row,
        p.iview < ([⟨30, 20, 10, 255⟩] : List color_t).length) :=
  ⟨by decide, by decide⟩

/-- C2 amended: the cell-below-palette-length invariant does hold for every
Indexed image produced by the color conversions — the Palette Builder
(image_rgb_to_index), the grayscale identity conversion
(image_gray_to_index, on well-formed images) and the binarization
(image_gray_to_binary) — but not for images returned by BMP read. -/
theorem c2_conversion_invariant :
    (∀ (img img' : image_t), image_rgb_to_index img = some img' →
      ∀ row ∈ img'.map, ∀ p ∈ row, p.iview < img'.palette.length) ∧
    (∀ (img img' : image_t), img.wf → image_gray_to_index img = some img' →
      ∀ row ∈ img'.map, ∀ p ∈ row, p.iview < img'.palette.length) ∧
    (∀ (img img' : image_t), image_gray_to_binary img = some img' →
      ∀ row ∈ img'.map, ∀ p ∈ row, p.iview < img'.palette.length) := by
  refine ⟨?_, ?_, ?_⟩
  · intro img img' h row hrow p hp
    unfold image_rgb_to_index at h
    by_cases hty : img.color_type ≠ color_type_t.rgb
    · rw [if_pos hty] at h
      exact absurd h (by simp)
    · rw [if_neg hty] at h
      cases hb : build_palette [] (image_colors img) with
      | none =>
        rw [hb] at h
        exact absurd h (by simp)
      | some pal =>
        rw [hb] at h
        simp only [Option.some.injEq] at h
        subst h
        simp only [List.mem_map] at hrow
        obtain ⟨row0, hrow0, rfl⟩ := hrow
        simp only [List.mem_map] at hp
        obtain ⟨p0, hp0, rfl⟩ := hp
        have hmem : p0.cview ∈ image_colors img := by
          unfold image_colors
          rw [List.mem_flatten]
          exact ⟨row0.map pixcel_t.cview, List.mem_map_of_mem _ hrow0,
            List.mem_map_of_mem _ hp0⟩
        have hmempal : p0.cview ∈ pal := by
          rw [build_palette_some (image_colors img) [] pal hb]
          exact first_seen_mem _ [] _ hmem
        exact List.indexOf_lt_length.mpr hmempal
  · intro img img' hwf h row hrow p hp
    unfold image_gray_to_index at h
    by_cases hty : img.color_type ≠ color_type_t.gray
    · rw [if_pos hty] at h
      exact absurd h (by simp)
    · rw [if_neg hty] at h
      simp only [Option.some.injEq] at h
      subst h
      simp only [List.mem_map] at hrow
      obtain ⟨row0, hrow0, rfl⟩ := hrow
      simp only [List.mem_map] at hp
      obtain ⟨p0, hp0, rfl⟩ := hp
      have : p0.b0 < 256 := ((hwf.2.1 row0 hrow0).2 p0 hp0).1
      simpa [gray_identity_palette, pixcel_t.fresh, pixcel_t.iview, pixcel_t.gview]
  · intro img img' h row hrow p hp
    unfold image_gray_to_binary at h
    by_cases hty : img.color_type ≠ color_type_t.gray
    · rw [if_pos hty] at h
      exact absurd h (by simp)
    · rw [if_neg hty] at h
      simp only [Option.some.injEq] at h
      subst h
      simp only [List.mem_map] at hrow
      obtain ⟨row0, hrow0, rfl⟩ := hrow
      simp only [List.mem_map] at hp
      obtain ⟨p0, hp0, rfl⟩ := hp
      by_cases hlt : p0.gview < 128
      · simp [pixcel_t.setI, pixcel_t.iview, hlt]
      · simp [pixcel_t.setI, pixcel_t.iview, hlt]

/-- Witness for C2 amended at concrete conversion results. -/
theorem c2_conversion_invariant_witness :
    pixcel_t.iview (pixcel_t.fresh 0) <
      (image_t.palette ⟨1, 1, color_type_t.index, [⟨9, 9, 9, 255⟩], [[pixcel_t.fresh 0]]⟩).length ∧
    pixcel_t.iview (pixcel_t.setI ⟨200, 0, 0, 0⟩ 0) <
      (image_t.palette ⟨1, 1, color_type_t.index,
        [color_from_rgb 255 255 255, color_from_rgb 0 0 0],
        [[pixcel_t.setI ⟨200, 0, 0, 0⟩ 0]]⟩).length :=
  ⟨c2_conversion_invariant.1 ⟨1, 1, color_type_t.rgb, [], [[⟨9, 9, 9, 255⟩]]⟩
      ⟨1, 1, color_type_t.index, [⟨9, 9, 9, 255⟩], [[pixcel_t.fresh 0]]⟩ (by decide)
      [pixcel_t.fresh 0] (by decide) (pixcel_t.fresh 0) (by decide),
   c2_conversion_invariant.2.2 ⟨1, 1, color_type_t.gray, [], [[⟨200, 0, 0, 0⟩]]⟩
      ⟨1, 1, color_type_t.index, [color_from_rgb 255 255 255, color_from_rgb 0 0 0],
        [[pixcel_t.setI ⟨200, 0, 0, 0⟩ 0]]⟩ (by decide)
      [pixcel_t.setI ⟨200, 0, 0, 0⟩ 0] (by decide) (pixcel_t.setI ⟨200, 0, 0, 0⟩ 0) (by decide)⟩

/-- The run scanner never runs past the row buffer. -/
theorem run_len_le_rem (raw : List Nat) (v : Nat) :
    ∀ fuel p, run_len_aux raw v p fuel ≤ raw.length - p := by
  intro fuel
  induction fuel with
  | zero => intro p; simp [run_len_aux]
  | succ fuel ih =>
    intro p
    simp only [run_len_aux]
    by_cases h : p < raw.length ∧ raw.getD p 0 = v
    · rw [if_pos h]
      have := ih (p + 1)
      omega
    · rw [if_neg h]
      omega

/-- A run at an in-range position has length at least one. -/
theorem step_at_pos (raw : List Nat) (cmax x : Nat) (hx : x < raw.length) (hc : 1 ≤ cmax) :
    1 ≤ step_at raw cmax x := by
  unfold step_at
  obtain ⟨fuel, rfl⟩ : ∃ fuel, cmax = fuel + 1 := ⟨cmax - 1, by omega⟩
  simp only [run_len_aux]
  rw [if_pos (And.intro hx trivial)]
  omega

/-- A run never extends past the row buffer. -/
theorem step_at_le_rem (raw : List Nat) (cmax x : Nat) :
    step_at raw cmax x ≤ raw.length - x :=
  run_len_le_rem raw (raw.getD x 0) cmax x

/-- The absolute-mode accumulation never runs past the row buffer. -/
theorem accum_count_le (raw : List Nat) (cmax x : Nat) :
    ∀ fuel count red, x + count ≤ raw.length →
      x + (accum_aux raw cmax x count red fuel).1 ≤ raw.length := by
  intro fuel
  induction fuel with
  | zero => intro count red h; simpa [accum_aux]
  | succ fuel ih =>
    intro count red h
    simp only [accum_aux]
    by_cases hc : x + count < raw.length ∧ count < cmax ∧ step_at raw cmax (x + count) ≤ 2
    · rw [if_pos hc]
      apply ih
      have := step_at_le_rem raw cmax (x + count)
      omega
    · rw [if_neg hc]
      exact h

/-- The singleton-run tally never exceeds the accumulated byte count. -/
theorem accum_red_le (raw : List Nat) (cmax x : Nat) :
    ∀ fuel count red, red ≤ count →
      (accum_aux raw cmax x count red fuel).2 ≤ (accum_aux raw cmax x count red fuel).1 := by
  intro fuel
  induction fuel with
  | zero => intro count red h; simpa [accum_aux]
  | succ fuel ih =>
    intro count red h
    simp only [accum_aux]
    by_cases hc : x + count < raw.length ∧ count < cmax ∧ step_at raw cmax (x + count) ≤ 2
    · rw [if_pos hc]
      apply ih
      have h1 := step_at_pos raw cmax (x + count) hc.1 (by omega)
      by_cases hs : step_at raw cmax (x + count) = 1
      · rw [if_pos hs]
        omega
      · rw [if_neg hs]
        omega
    · rw [if_neg hc]
      exact h

/-- Arithmetic core of the clamp: a record of `st` raw bytes starting at
byte `pos`, with its count clamped as written, never claims more pixels
than remain before `width`. -/
theorem clamp_le_width (pos st L width cpb : Nat) (h1 : 1 ≤ st) (hxs : pos + st ≤ L)
    (hL : L * cpb ≤ width + (cpb - 1)) (hcp : 1 ≤ cpb) (hcp2 : cpb ≤ 2) :
    (if st * cpb + pos * cpb > width then st * cpb - 1 else st * cpb) + pos * cpb ≤ width := by
  have hone : 1 * cpb ≤ st * cpb := Nat.mul_le_mul_right cpb h1
  have hsum : pos * cpb + st * cpb = (pos + st) * cpb := (Nat.add_mul pos st cpb).symm
  have hb : (pos + st) * cpb ≤ L * cpb := Nat.mul_le_mul_right cpb hxs
  split <;> omega

/-- Every record of the singleton-run emission respects the clamp. -/
theorem enc_singles_clamp (raw : List Nat) (cmax cpb width x count : Nat)
    (hcmax : 1 ≤ cmax) (hcp : 1 ≤ cpb) (hcp2 : cpb ≤ 2)
    (hL : raw.length * cpb ≤ width + (cpb - 1)) (hxc : x + count ≤ raw.length) :
    ∀ fuel i, ∀ pr ∈ enc_singles raw cmax cpb width x count fuel i,
      (Prod.snd pr).claimed + (Prod.fst pr) * cpb ≤ width := by
  intro fuel
  induction fuel with
  | zero => intro i pr h; simp [enc_singles] at h
  | succ fuel ih =>
    intro i pr hpr
    simp only [enc_singles] at hpr
    by_cases hi : i < x + count
    · rw [if_pos hi] at hpr
      rcases List.mem_cons.mp hpr with heq | htail
      · subst heq
        simp only [rle_rec.claimed]
        have hst1 : 1 ≤ step_at raw cmax i := step_at_pos raw cmax i (by omega) hcmax
        have hst2 : i + step_at raw cmax i ≤ raw.length := by
          have := step_at_le_rem raw cmax i
          omega
        exact clamp_le_width i (step_at raw cmax i) raw.length width cpb hst1 hst2 hL hcp hcp2
      · exact ih _ pr htail
    · rw [if_neg hi] at hpr
      simp at hpr

/-- Every record of the row-compression loop respects the clamp. -/
theorem encode_row_aux_clamp (raw : List Nat) (cmax cpb width : Nat)
    (hcmax : 1 ≤ cmax) (hcp : 1 ≤ cpb) (hcp2 : cpb ≤ 2)
    (hL : raw.length * cpb ≤ width + (cpb - 1)) :
    ∀ fuel x, ∀ pr ∈ encode_row_aux raw cmax cpb width fuel x,
      (Prod.snd pr).claimed + (Prod.fst pr) * cpb ≤ width := by
  intro fuel
  induction fuel with
  | zero => intro x pr h; simp [encode_row_aux] at h
  | succ fuel ih =>
    intro x pr hpr
    simp only [encode_row_aux] at hpr
    by_cases hx : x < raw.length
    · rw [if_pos hx] at hpr
      by_cases hs : step_at raw cmax x < 2
      · rw [if_pos hs] at hpr
        have haccl := accum_count_le raw cmax x (cmax + 1) 0 0 (by omega)
        have haccr := accum_red_le raw cmax x (cmax + 1) 0 0 (by omega)
        by_cases hred : (accum_aux raw cmax x 0 0 (cmax + 1)).2 > 2
        · rw [if_pos hred] at hpr
          rcases List.mem_cons.mp hpr with heq | htail
          · subst heq
            simp only [rle_rec.claimed]
            have hc1 : 1 ≤ (if (accum_aux raw cmax x 0 0 (cmax + 1)).1 * cpb > 255
                then (accum_aux raw cmax x 0 0 (cmax + 1)).1 - 2
                else (accum_aux raw cmax x 0 0 (cmax + 1)).1) := by
              split <;> omega
            have hc2 : x + (if (accum_aux raw cmax x 0 0 (cmax + 1)).1 * cpb > 255
                then (accum_aux raw cmax x 0 0 (cmax + 1)).1 - 2
                else (accum_aux raw cmax x 0 0 (cmax + 1)).1) ≤ raw.length := by
              split <;> omega
            exact clamp_le_width x _ raw.length width cpb hc1 hc2 hL hcp hcp2
          · exact ih _ pr htail
        · rw [if_neg hred] at hpr
          rcases List.mem_append.mp hpr with hsing | htail
          · refine enc_singles_clamp raw cmax cpb width x _ hcmax hcp hcp2 hL ?_ _ _ pr hsing
            split <;> omega
          · exact ih _ pr htail
      · rw [if_neg hs] at hpr
        rcases List.mem_cons.mp hpr with heq | htail
        · subst heq
          simp only [rle_rec.claimed]
          have hst1 : 1 ≤ step_at raw cmax x := step_at_pos raw cmax x hx hcmax
          have hst2 : x + step_at raw cmax x ≤ raw.length := by
            have := step_at_le_rem raw cmax x
            omega
          exact clamp_le_width x (step_at raw cmax x) raw.length width cpb hst1 hst2 hL hcp hcp2
        · exact ih _ pr htail
    · rw [if_neg hx] at hpr
      simp at hpr

/-- C9: for the RLE bit depths (4 and 8 bpp) and a packed row buffer of
`ceil(width·bc/8)` bytes, every record the encoder emits claims at most the
pixels remaining in the row from the record's starting position; in
particular an 8-bit row of width 3 with three distinct bytes produces one
absolute-mode record with count exactly 3, never 4. -/
theorem c9_rle_clamp :
    (∀ (bc width : Nat) (raw : List Nat), (bc = 4 ∨ bc = 8) →
      raw.length = (width * bc + 7) / 8 →
      ∀ pr ∈ encode_row raw (255 / (8 / bc)) (8 / bc) width,
        (Prod.snd pr).claimed + (Prod.fst pr) * (8 / bc) ≤ width) ∧
    encode_row [7, 8, 9] 255 1 3 = [(0, rle_rec.abs 3 [7, 8, 9])] := by
  constructor
  · intro bc width raw hbc hlen pr hpr
    rcases hbc with rfl | rfl
    · refine encode_row_aux_clamp raw 127 2 width (by omega) (by omega) (by omega) ?_
        (raw.length + 1) 0 pr hpr
      omega
    · refine encode_row_aux_clamp raw 255 1 width (by omega) (by omega) (by omega) ?_
        (raw.length + 1) 0 pr hpr
      omega
  · decide

/-- Witness for C9 at the spec's width-3, 8-bpp row of distinct bytes. -/
theorem c9_rle_clamp_witness :
    (Prod.snd ((0 : Nat), rle_rec.abs 3 [7, 8, 9])).claimed +
      (Prod.fst ((0 : Nat), rle_rec.abs 3 [7, 8, 9])) * (8 / 8) ≤ 3 :=
  c9_rle_clamp.1 8 3 [7, 8, 9] (Or.inr rfl) (by decide)
    ((0 : Nat), rle_rec.abs 3 [7, 8, 9]) (by decide)
